import Mathlib

set_option maxHeartbeats 1000000

/-!
Shallow embedding of the MLparserXSLX backend.  The repository contains two
variants of the server: `src/server.js` (pull model: Runpod submit / poll /
fetch-result) and `src/unnamed/part_001` (inline model: single Modal
inference call with retry).  Both share the header normalizer, the
auto-mapping engine and the candidate ranking; they differ in the mapping
validator, in the retry client and in where the HTTP acknowledgment is sent
relative to the external submit call.  JavaScript strings are modelled as
Lean `String` (lists of unicode scalar values), JS numbers used here are
naturals / integers, and the host environment (fetch outcomes, random
jitter, the locale collator behind `localeCompare`) is passed in as explicit
oracles.
-/

/-- The JS whitespace class (`String.prototype.trim` / `\s`), restricted to
the code points that can occur in this code path. -/
def jsWs (c : Char) : Bool :=
  c == ' ' || c == '\t' || c == '\n' || c == '\r' || c == '\x0b' || c == '\x0c' ||
  c == '\u00A0' || c == '\uFEFF' || c == '\u2028' || c == '\u2029'

/-- Code-point model of the Unicode letter class `\p{L}` used by `norm`'s
strip step, on the BMP ranges relevant to spreadsheet headers (ASCII,
Latin-1 and extended Latin, Greek, Cyrillic, Hebrew, Arabic, CJK). -/
def uniLetter (c : Char) : Bool :=
  c.isAlpha ||
  (0xC0 ≤ c.toNat && c.toNat ≤ 0x2AF && c.toNat ≠ 0xD7 && c.toNat ≠ 0xF7) ||
  (0x370 ≤ c.toNat && c.toNat ≤ 0x3FF && c.toNat ≠ 0x3A2) ||
  (0x400 ≤ c.toNat && c.toNat ≤ 0x4FF) ||
  (0x590 ≤ c.toNat && c.toNat ≤ 0x5FF) ||
  (0x600 ≤ c.toNat && c.toNat ≤ 0x6FF) ||
  (0x4E00 ≤ c.toNat && c.toNat ≤ 0x9FFF)

/-- Code-point model of the Unicode digit class `\p{N}` (ASCII digits plus
Arabic-Indic digits). -/
def uniDigit (c : Char) : Bool :=
  c.isDigit || (0x660 ≤ c.toNat && c.toNat ≤ 0x669)

/-- Characters kept by `norm`'s strip step `replace(/[^\p{L}\p{N} ]/gu, "")`. -/
def keepChar (c : Char) : Bool :=
  uniLetter c || uniDigit c || c == ' '

/-- Characters collapsed by `norm`'s `replace(/[_\-]+/g, " ")`. -/
def udChar (c : Char) : Bool :=
  c == '_' || c == '-'

/-- The non-breaking-space substitution of `norm` (NBSP to plain space). -/
def mapNbsp (c : Char) : Char :=
  if c == '\u00A0' then ' ' else c

/-- Code-point model of the lower-casing done by `String.prototype.toLowerCase`
on the ranges relevant here (ASCII, Latin-1, Greek, Cyrillic). -/
def lowerCode (n : Nat) : Nat :=
  if 65 ≤ n ∧ n ≤ 90 then n + 32
  else if 0xC0 ≤ n ∧ n ≤ 0xDE ∧ n ≠ 0xD7 then n + 32
  else if 0x391 ≤ n ∧ n ≤ 0x3A9 ∧ n ≠ 0x3A2 then n + 32
  else if 0x410 ≤ n ∧ n ≤ 0x42F then n + 32
  else if 0x400 ≤ n ∧ n ≤ 0x40F then n + 80
  else n

/-- Character-wise JS lower-casing. -/
def jsToLower (c : Char) : Char :=
  Char.ofNat (lowerCode c.toNat)

/-- String-wise JS `toLowerCase`. -/
def strToLower (s : String) : String :=
  String.mk (s.toList.map jsToLower)

/-- Does `pat` occur at the head of the list? -/
def leadsWith : List Char → List Char → Bool
  | [], _ => true
  | _ :: _, [] => false
  | a :: as, b :: bs => a == b && leadsWith as bs

/-- Does `pat` occur somewhere inside `s` (contiguously)? -/
def hasSubList (pat : List Char) (s : List Char) : Bool :=
  match s with
  | [] => leadsWith pat []
  | _ :: rest => leadsWith pat s || hasSubList pat rest

/-- JS `s.includes(pat)`. -/
def strIncludes (s pat : String) : Bool :=
  hasSubList pat.toList s.toList

/-- Drop leading JS whitespace. -/
def dropLeadWs (cs : List Char) : List Char :=
  cs.dropWhile jsWs

/-- Drop trailing JS whitespace. -/
def dropTrailWs : List Char → List Char
  | [] => []
  | c :: rest =>
    let r := dropTrailWs rest
    if r.isEmpty && jsWs c then [] else c :: r

/-- JS `String.prototype.trim` on a character list. -/
def jsTrim (cs : List Char) : List Char :=
  dropTrailWs (dropLeadWs cs)

/-- JS `String.prototype.trim`. -/
def jsTrimStr (s : String) : String :=
  String.mk (jsTrim s.toList)

/-- Replace every maximal run of characters satisfying `p` by the single
character `r` (the semantics of `replace(/[X]+/g, r)` for a class `X`).
The boolean state records whether the scan is currently inside a run. -/
def collapseRunsGo (p : Char → Bool) (r : Char) : Bool → List Char → List Char
  | _, [] => []
  | inRun, c :: rest =>
    if p c then
      if inRun then collapseRunsGo p r true rest
      else r :: collapseRunsGo p r true rest
    else c :: collapseRunsGo p r false rest

/-- Replace every maximal run of `p`-characters by one `r`. -/
def collapseRuns (p : Char → Bool) (r : Char) (cs : List Char) : List Char :=
  collapseRunsGo p r false cs

/-- No two adjacent characters both satisfy `p`. -/
def noRun (p : Char → Bool) : List Char → Bool
  | [] => true
  | a :: rest =>
    (match rest.head? with
     | some b => !(p a && p b)
     | none => true) && noRun p rest

/-- Embedding of `norm` (src/server.js lines 93-102, src/unnamed/part_001
lines 47-56): trim, lower-case, NBSP to space, collapse `[_-]+` to one
space, strip everything but letters / digits / space, collapse whitespace
runs to one space, trim again. -/
def norm (s : String) : String :=
  String.mk (jsTrim (collapseRuns jsWs ' '
    ((collapseRuns udChar ' ' (((jsTrim s.toList).map jsToLower).map mapNbsp)).filter keepChar)))

/-- JS `s.split(" ")` worker: accumulates the current (reversed) chunk. -/
def splitSpacesGo (cur : List Char) : List Char → List String
  | [] => [String.mk cur.reverse]
  | c :: rest =>
    if c == ' ' then String.mk cur.reverse :: splitSpacesGo [] rest
    else splitSpacesGo (c :: cur) rest

/-- JS `s.split(" ")`. -/
def splitSpaces (s : String) : List String :=
  splitSpacesGo [] s.toList

/-- `Array.from(new Set(xs))` keeps the first occurrence of each element in
order; worker carrying the set of already-seen elements. -/
def jsSetDedupGo (seen : List String) : List String → List String
  | [] => []
  | x :: rest =>
    if seen.contains x then jsSetDedupGo seen rest
    else x :: jsSetDedupGo (x :: seen) rest

/-- `Array.from(new Set(xs))`. -/
def jsSetDedup (xs : List String) : List String :=
  jsSetDedupGo [] xs

/-- One entry of `headersInfo` inside `autoMap`: the trimmed raw header text
and its cached normalized form. -/
structure HeaderInfo where
  raw : String
  n : String
deriving DecidableEq

/-- `autoMap`'s `headersInfo`: headers with cached normalized forms, blank
(empty-after-trim) headers dropped (src/server.js lines 135-137). -/
def headersInfoOf (headers : List String) : List HeaderInfo :=
  (headers.map (fun h => ⟨jsTrimStr h, norm h⟩)).filter (fun h => h.raw != "")

/-- `findOne` inside `autoMap` (src/server.js lines 139-146): first header
whose normalized form equals a normalized alias, else first whose normalized
form contains an alias, else null. -/
def findOne (aliases : List String) (headers : List String) : Option String :=
  let al := aliases.map norm
  let hi := headersInfoOf headers
  match hi.find? (fun h => al.contains h.n) with
  | some h => some h.raw
  | none => (hi.find? (fun h => al.any (fun a => strIncludes h.n a))).map (fun h => h.raw)

/-- `findMany` inside `autoMap` (src/server.js lines 148-154): all headers
matching any alias (equality or substring), in order, de-duplicated. -/
def findMany (aliases : List String) (headers : List String) : List String :=
  let al := aliases.map norm
  let hi := headersInfoOf headers
  jsSetDedup ((hi.filter (fun h => al.any (fun a => h.n == a || strIncludes h.n a))).map (fun h => h.raw))

/-- The `required.json` configuration: required field names and the alias
table (`reqCfg.aliases?.[key] || []` is modelled by a total function). -/
structure ReqCfg where
  required : List String
  aliases : String → List String

/-- The auto-mapping result record. -/
structure AutoMapping where
  product_images : Option String
  title : Option String
  description : Option String
  bullet_points : List String
deriving DecidableEq

/-- `autoMap` (src/server.js lines 134-170): best-guess mapping for the four
canonical fields plus the list of missing fields. -/
def autoMap (cfg : ReqCfg) (headers : List String) : AutoMapping × List String :=
  let mapping : AutoMapping :=
    ⟨findOne (cfg.aliases "product_images") headers,
     findOne (cfg.aliases "title") headers,
     findOne (cfg.aliases "description") headers,
     findMany (cfg.aliases "bullet_points") headers⟩
  let missing :=
    (if mapping.product_images.isNone then ["product_images"] else []) ++
    (if mapping.title.isNone then ["title"] else []) ++
    (if mapping.description.isNone then ["description"] else []) ++
    (if mapping.bullet_points.isEmpty then ["bullet_points"] else [])
  (mapping, missing)

/-- `extractColumnsFromFirstSheet` (src/server.js lines 112-132) after the
XLSX cell grid `aoa` has been produced: pick the first row with a cell whose
normalized form is non-empty (default row 0), stringify-trim its cells and
drop the falsy (empty) ones. -/
def extractColumnsFromFirstSheet (aoa : List (List String)) : List String :=
  let headerRow := (aoa.findIdx? (fun row => row.any (fun v => norm v != ""))).getD 0
  ((aoa.getD headerRow []).map jsTrimStr).filter (fun s => s != "")

/-- An `Int`-valued comparator that is plain lexicographic (code-point)
string comparison; `String.prototype.localeCompare` coincides with this on
hosts built without ICU collation data. -/
def compareStrInt (a b : String) : Int :=
  if a < b then -1 else if b < a then 1 else 0

/-- Stable insertion of `x` into a list sorted by the comparator `cmp`
(negative means "before"): `x` goes before the first element not strictly
smaller, as the (stable, ES2019) JS `Array.prototype.sort` does. -/
def insertCmp {α : Type} (cmp : α → α → Int) (x : α) : List α → List α
  | [] => [x]
  | y :: rest => if cmp y x < 0 then y :: insertCmp cmp x rest else x :: y :: rest

/-- Stable comparator sort (JS `Array.prototype.sort`). -/
def sortCmp {α : Type} (cmp : α → α → Int) : List α → List α
  | [] => []
  | x :: rest => insertCmp cmp x (sortCmp cmp rest)

/-- `candidatesFor` (src/server.js lines 172-194).  `lc` is the host's
`String.prototype.localeCompare`, passed in as an oracle because ECMA-402
leaves its collation implementation-defined. -/
def candidatesFor (lc : String → String → Int) (aliases : List String)
    (headers : List String) (limit : Nat) : List String :=
  let al := aliases.map norm
  let scored := (headers.map (fun h =>
      let hn := norm h
      let score : Nat :=
        if al.contains hn then 3
        else if al.any (fun a => strIncludes hn a) then 2
        else if (((al.map splitSpaces).flatten).filter (fun t => t != "")).any
            (fun t => strIncludes hn t) then 1
        else 0
      (h, score))).filter (fun x => 0 < x.2)
  let cmp := fun (x y : String × Nat) =>
    let d : Int := (y.2 : Int) - (x.2 : Int)
    if d != 0 then d else lc x.1 y.1
  (jsSetDedup ((sortCmp cmp scored).map (fun x => x.1))).take limit

/-- The candidate-ranking pipeline exactly as the specification words it:
score 3 = normalized form equals an alias, 2 = contains an alias, 1 =
contains an alias token, 0 otherwise; keep positive scores; sort by
descending score with ties broken by lexicographic order of the raw header;
de-duplicate; truncate to the limit. -/
def candidatesSpecC6 (aliases : List String) (headers : List String) (limit : Nat) : List String :=
  let al := aliases.map norm
  let scored := (headers.map (fun h =>
      let hn := norm h
      let score : Nat :=
        if al.contains hn then 3
        else if al.any (fun a => strIncludes hn a) then 2
        else if (((al.map splitSpaces).flatten).filter (fun t => t != "")).any
            (fun t => strIncludes hn t) then 1
        else 0
      (h, score))).filter (fun x => 0 < x.2)
  let cmp := fun (x y : String × Nat) =>
    if x.2 ≠ y.2 then ((y.2 : Int) - (x.2 : Int)) else compareStrInt x.1 y.1
  (jsSetDedup ((sortCmp cmp scored).map (fun x => x.1))).take limit

/-- The `bullet_points` slot of an incoming mapping JSON value: absent (or
another falsy value), a single string, or an array of strings. -/
inductive BulletVal where
  | noneVal
  | single (s : String)
  | many (xs : List String)
deriving DecidableEq

/-- A candidate field mapping as parsed from the request body.  `none`
models an absent (undefined) slot. -/
structure MappingVal where
  product_images : Option String
  title : Option String
  description : Option String
  bullet_points : BulletVal
deriving DecidableEq

/-- `Array.isArray(bp) ? bp : (bp ? [bp] : [])` — the empty string is falsy. -/
def bulletList : BulletVal → List String
  | .noneVal => []
  | .single s => if s == "" then [] else [s]
  | .many xs => xs

/-- JS truthiness test for an optional string slot. -/
def isFalsyStr : Option String → Bool
  | none => true
  | some s => s == ""

/-- String interpolation of a possibly-undefined slot (template literals
print `undefined`). -/
def optShow : Option String → String
  | none => "undefined"
  | some s => s

/-- JS `Array.prototype.join(", ")`. -/
def joinComma : List String → String
  | [] => ""
  | [x] => x
  | x :: y :: rest => x ++ ", " ++ joinComma (y :: rest)

/-- Result of either variant's `validateMapping`. -/
structure VResult where
  ok : Bool
  errors : List String
  bullet_points : List String
deriving DecidableEq

/-- `validateMapping` of src/server.js lines 196-227: membership in the
current columns is decided with a raw-string `Set` (`set.has(...)`),
missing fields yield `Missing mapping: ...`, unknown columns yield
`Mapped column not found: ...` (and one error per bad bullet entry). -/
def validateMappingServer (m : MappingVal) (columns : List String) : VResult :=
  let bp := bulletList m.bullet_points
  let e1 :=
    if isFalsyStr m.product_images then ["Missing mapping: product_images"]
    else if columns.contains (optShow m.product_images) then []
    else ["Mapped column not found: " ++ optShow m.product_images]
  let e2 :=
    if isFalsyStr m.title then ["Missing mapping: title"]
    else if columns.contains (optShow m.title) then []
    else ["Mapped column not found: " ++ optShow m.title]
  let e3 :=
    if isFalsyStr m.description then ["Missing mapping: description"]
    else if columns.contains (optShow m.description) then []
    else ["Mapped column not found: " ++ optShow m.description]
  let e4 :=
    if bp.isEmpty then ["Missing mapping: bullet_points"]
    else bp.filterMap (fun col =>
      if columns.contains col then none
      else some ("Mapped bullet_points column not found: " ++ col))
  let errors := e1 ++ e2 ++ e3 ++ e4
  ⟨errors.isEmpty, errors, bp⟩

/-- The `exists` helper of part_001's `validateMapping` (lines 158-161): a
`Map` from normalized column text to the (last) raw column, consulted with
the normalized candidate; falsy inputs and falsy hits become `null`. -/
def existsCol (columns : List String) (col : Option String) : Option String :=
  match col with
  | none => none
  | some c =>
    if c == "" then none
    else
      match columns.reverse.find? (fun x => norm x == norm c) with
      | none => none
      | some r => if r == "" then none else some r

/-- `validateMapping` of src/unnamed/part_001 lines 154-182: columns are
matched by normalized equality; unresolvable bullet entries are silently
filtered and a single combined error is emitted only when none resolve. -/
def validateMappingInline (m : MappingVal) (columns : List String) : VResult :=
  let pi := existsCol columns m.product_images
  let ti := existsCol columns m.title
  let de := existsCol columns m.description
  let bpInput := bulletList m.bullet_points
  let bps := bpInput.filterMap (fun c => existsCol columns (some c))
  let e1 := if pi.isNone then ["Mapped column not found: " ++ optShow m.product_images] else []
  let e2 := if ti.isNone then ["Mapped column not found: " ++ optShow m.title] else []
  let e3 := if de.isNone then ["Mapped column not found: " ++ optShow m.description] else []
  let e4 := if bps.isEmpty then ["Mapped bullet_points column not found: " ++ joinComma bpInput] else []
  let errors := e1 ++ e2 ++ e3 ++ e4
  ⟨errors.isEmpty, errors, bps⟩

/-- One stored ephemeral file (src/server.js line 35: token ->
buffer/filename/mime/expiresAt). -/
structure TempEntry where
  buffer : List Nat
  filename : String
  mime : String
  expiresAt : Nat
deriving DecidableEq

/-- The `TEMP_FILES` map, as an insertion-ordered association list. -/
abbrev TempStore := List (String × TempEntry)

/-- JS `x || d` for an optional string. -/
def orDefault (o : Option String) (d : String) : String :=
  match o with
  | none => d
  | some s => if s == "" then d else s

/-- JS `Map.prototype.set`: overwrite an existing key in place, else append
in insertion order. -/
def mapSet (store : TempStore) (k : String) (v : TempEntry) : TempStore :=
  if store.any (fun p => p.1 == k) then
    store.map (fun p => if p.1 == k then (k, v) else p)
  else store ++ [(k, v)]

/-- `putTempFile` (src/server.js lines 38-47): store the entry under a fresh
token with `expiresAt = now + TTL`. -/
def putTempFile (store : TempStore) (now ttl : Nat) (token : String)
    (buffer : List Nat) (filename mime : Option String) : TempStore :=
  mapSet store token
    ⟨buffer, orDefault filename "input.xlsx", orDefault mime "application/octet-stream", now + ttl⟩

/-- The `GET /api/tmp/:token` lookup (src/server.js lines 58-65): `none`
models the 404 taken when the token is unknown or `expiresAt <= Date.now()`. -/
def getTmp (store : TempStore) (now : Nat) (token : String) : Option TempEntry :=
  match store.find? (fun p => p.1 == token) with
  | none => none
  | some p => if p.2.expiresAt ≤ now then none else some p.2

/-- The periodic cleanup sweep (src/server.js lines 50-55): delete every
entry whose expiry has passed. -/
def sweepTemp (store : TempStore) (now : Nat) : TempStore :=
  store.filter (fun p => !(p.2.expiresAt ≤ now))

/-- The environment's outcome of one fetch attempt: the fetch promise
rejects (with an abort flag), or an HTTP response with a status and body
text arrives. -/
inductive AttemptOutcome where
  | netErr (msg : String) (aborted : Bool)
  | httpResp (status : Nat) (body : String)
deriving DecidableEq

/-- A thrown JS error as inspected by the retry loop: `message`, `name`, and
the `httpStatus` property attached to HTTP errors. -/
structure FetchErr where
  message : String
  name : String
  httpStatus : Option Nat
deriving DecidableEq

/-- `isRetryableFetchError` (src/unnamed/part_001 lines 189-200): does the
lower-cased message contain one of the network-failure markers? -/
def isRetryableFetchError (msg : String) : Bool :=
  let m := strToLower msg
  strIncludes m "fetch failed" || strIncludes m "socket" || strIncludes m "econnreset" ||
  strIncludes m "etimedout" || strIncludes m "timeout" || strIncludes m "network" ||
  strIncludes m "undici"

/-- One attempt of the `try` block of `fetchJsonWithRetry` (part_001 lines
218-230): a rejected fetch throws as-is; a non-2xx response throws
`HTTP <status>: <text>` with `httpStatus` attached; a 2xx response is
JSON-parsed (a parse failure throws a `SyntaxError`). -/
def attemptResult (parse : String → Except String String) :
    AttemptOutcome → Except FetchErr String
  | .netErr msg aborted => .error ⟨msg, if aborted then "AbortError" else "Error", none⟩
  | .httpResp status body =>
    if 200 ≤ status && status < 300 then
      match parse body with
      | .ok v => .ok v
      | .error emsg => .error ⟨emsg, "SyntaxError", none⟩
    else .error ⟨"HTTP " ++ Nat.repr status ++ ": " ++ body, "Error", some status⟩

/-- The retry decision of part_001 lines 234-236: HTTP 429/5xx, or a
network-looking message, or an abort. -/
def isRetryableErr (e : FetchErr) : Bool :=
  let retryableHttp :=
    match e.httpStatus with
    | some s => s == 429 || 500 ≤ s
    | none => false
  let retryableNet := isRetryableFetchError e.message || e.name == "AbortError"
  retryableHttp || retryableNet

/-- The retry options of `fetchJsonWithRetry`. -/
structure RetryCfg where
  retries : Nat
  baseDelayMs : Nat
  maxDelayMs : Nat
deriving DecidableEq

/-- The attempt loop of `fetchJsonWithRetry` (part_001 lines 214-259).
`attempt` is the 1-based attempt counter, the second argument the number of
attempts still allowed (`retries - attempt + 1`); `env` gives each
attempt's outcome and `jit` the random jitter drawn before each sleep.
Returns the final result together with the list of waits slept, in order. -/
def fetchRetryGo (parse : String → Except String String) (env : Nat → AttemptOutcome)
    (jit : Nat → Nat) (cfg : RetryCfg) : Nat → Nat → Except FetchErr String × List Nat
  | _, 0 => (.error ⟨"", "Error", none⟩, [])
  | attempt, left + 1 =>
    match attemptResult parse (env attempt) with
    | .ok v => (.ok v, [])
    | .error e =>
      if left == 0 || !(isRetryableErr e) then (.error e, [])
      else
        let expDelay := min cfg.maxDelayMs (cfg.baseDelayMs * 2 ^ (attempt - 1))
        let wait := expDelay + jit attempt
        let r := fetchRetryGo parse env jit cfg (attempt + 1) left
        (r.1, wait :: r.2)

/-- `fetchJsonWithRetry` (src/unnamed/part_001 lines 202-262). -/
def fetchJsonWithRetry (parse : String → Except String String) (env : Nat → AttemptOutcome)
    (jit : Nat → Nat) (cfg : RetryCfg) : Except FetchErr String × List Nat :=
  fetchRetryGo parse env jit cfg 1 cfg.retries

/-- A character allowed in the email regex classes `[^\s@]`. -/
def emailPartChar (c : Char) : Bool :=
  !(jsWs c) && c != '@'

/-- Split a character list at the first occurrence of `t`. -/
def breakAtChar (t : Char) : List Char → Option (List Char × List Char)
  | [] => none
  | c :: rest =>
    if c == t then some ([], rest)
    else
      match breakAtChar t rest with
      | none => none
      | some p => some (c :: p.1, p.2)

/-- The email validation regex `/^[^\s@]+@[^\s@]+\.[^\s@]+$/` of both job
handlers: a non-empty `@`-free local part, an `@`, and a domain containing
a dot with non-empty `@`-free pieces on both sides. -/
def emailRegexOk (s : String) : Bool :=
  match breakAtChar '@' s.toList with
  | none => false
  | some p =>
    !p.1.isEmpty && p.1.all emailPartChar && p.2.all emailPartChar &&
    (match p.2 with
     | [] => false
     | _ :: btail => btail.dropLast.contains '.')

/-- Externally visible events of a job-creation request, in execution
order: HTTP responses, the temp-file store write, the external submit call
(with the model list it carries), polling / result fetching, and the
notification emails. -/
inductive HEvent where
  | respondNoFile
  | respondBadEmail
  | respondInvalidMapping
  | respondUnknownModel (m : String)
  | respondNoModels
  | respondBadRequest
  | respondCreated
  | putTemp
  | submit (models : List String)
  | emailStart
  | waitPoll
  | fetchResult
  | emailResult
deriving DecidableEq

/-- The `models` form field as seen after `safeJsonParse(req.body.models ||
"[]", [])`: absent (parses the default `"[]"`), unparseable (fallback `[]`),
parseable but not an array, or an array of strings. -/
inductive ModelsInput where
  | absent
  | parseFail
  | nonArray
  | arrayVal (xs : List String)
deriving DecidableEq

/-- The value `safeJsonParse` leaves in `models` (`none` = a non-array JSON
value). -/
def parsedModels : ModelsInput → Option (List String)
  | .absent => some []
  | .parseFail => some []
  | .nonArray => none
  | .arrayVal xs => some xs

/-- Part_001 line 561: `if (!Array.isArray(models) || !models.length)
models = ["braket_type"]`. -/
def resolveModels (mi : ModelsInput) : List String :=
  match parsedModels mi with
  | none => ["braket_type"]
  | some xs => if xs.isEmpty then ["braket_type"] else xs

/-- A job-creation request to the inline-model variant, together with the
environment oracles its handler consults (the columns its file parses to,
and whether the background inference call eventually succeeds). -/
structure InlineJobsReq where
  hasFile : Bool
  email : String
  mapping : MappingVal
  models : ModelsInput
  columns : List String
  inferOk : Bool

/-- Event trace of `app.post("/api/jobs")` of src/unnamed/part_001 (lines
556-640): validations, then the 201 acknowledgment, then the background
task (started email, inference submit, result email on success). -/
def inlineJobsHandler (modelIds : List String) (r : InlineJobsReq) : List HEvent :=
  let models := resolveModels r.models
  if !r.hasFile then [.respondNoFile]
  else if !(emailRegexOk r.email) then [.respondBadEmail]
  else
    let v := validateMappingInline r.mapping r.columns
    if !v.ok then [.respondInvalidMapping]
    else
      match models.find? (fun m => !(modelIds.contains m)) with
      | some m => [.respondUnknownModel m]
      | none =>
        if models.isEmpty then [.respondNoModels]
        else
          [.respondCreated, .emailStart, .submit models] ++
          (if r.inferOk then [.emailResult] else [])

/-- A job-creation request to the pull-model variant plus its environment
oracles (whether the awaited Runpod submit succeeds, and whether the
background wait / fetch / email chain succeeds). -/
structure ServerJobsReq where
  hasFile : Bool
  email : String
  mapping : MappingVal
  models : ModelsInput
  columns : List String
  submitOk : Bool
  bgOk : Bool

/-- Event trace of `app.post("/api/jobs")` of src/server.js (lines 539-601):
validations, the temp-file write, the awaited Runpod submit, and only then
the 201 acknowledgment (a submit failure is caught and answered 400); the
background poll / fetch / email chain runs after the response. -/
def serverJobsHandler (modelIds : List String) (r : ServerJobsReq) : List HEvent :=
  if !r.hasFile then [.respondNoFile]
  else if !(emailRegexOk r.email) then [.respondBadEmail]
  else
    let v := validateMappingServer r.mapping r.columns
    if !v.ok then [.respondInvalidMapping]
    else
      match parsedModels r.models with
      | none => [.respondBadRequest]
      | some models =>
        match models.find? (fun m => !(modelIds.contains m)) with
        | some m => [.respondUnknownModel m]
        | none =>
          if models.isEmpty then [.respondNoModels]
          else
            [.putTemp, .submit models] ++
            (if r.submitOk then
              [.respondCreated] ++
                (if r.bgOk then [.waitPoll, .fetchResult, .emailResult] else [.waitPoll])
            else [.respondBadRequest])

/-! ### Character-level lemmas -/

theorem toNat_ofNat_valid {n : Nat} (h : n.isValidChar) : (Char.ofNat n).toNat = n := by
  simp [Char.ofNat, dif_pos h, Char.ofNatAux, Char.toNat, UInt32.toNat, BitVec.toNat_ofNatLt]

theorem lowerCode_valid {n : Nat} (h : n.isValidChar) : (lowerCode n).isValidChar := by
  rcases h with h | h
  · unfold lowerCode; split_ifs <;> exact Or.inl (by omega)
  · unfold lowerCode; split_ifs <;> exact Or.inr (by omega)

theorem lowerCode_idem (n : Nat) : lowerCode (lowerCode n) = lowerCode n := by
  unfold lowerCode
  split_ifs <;> omega

theorem jsToLower_toNat (c : Char) : (jsToLower c).toNat = lowerCode c.toNat :=
  toNat_ofNat_valid (lowerCode_valid c.valid)

theorem jsToLower_idem (c : Char) : jsToLower (jsToLower c) = jsToLower c := by
  show Char.ofNat (lowerCode (jsToLower c).toNat) = jsToLower c
  rw [jsToLower_toNat, lowerCode_idem]
  rfl

theorem keep_ws_eq_space {c : Char} (hk : keepChar c = true) (hw : jsWs c = true) : c = ' ' := by
  simp only [jsWs, Bool.or_eq_true, beq_iff_eq] at hw
  rcases hw with ((((((((rfl | rfl) | rfl) | rfl) | rfl) | rfl) | rfl) | rfl) | rfl) | rfl
  · rfl
  all_goals exact absurd hk (by decide)

theorem keep_not_ud {c : Char} (hk : keepChar c = true) : udChar c = false := by
  cases h : udChar c
  · rfl
  · simp only [udChar, Bool.or_eq_true, beq_iff_eq] at h
    rcases h with rfl | rfl <;> exact absurd hk (by decide)

theorem keep_not_nbsp {c : Char} (hk : keepChar c = true) : (c == ' ') = false := by
  cases h : c == ' '
  · rfl
  · rw [beq_iff_eq] at h
    subst h
    exact absurd hk (by decide)

/-! ### Lemmas about runs, trimming and collapsing -/

theorem noRun_cons {p : Char → Bool} {x : Char} {l : List Char} :
    noRun p (x :: l) = true ↔
      ((∀ y, l.head? = some y → (p x && p y) = false) ∧ noRun p l = true) := by
  cases l with
  | nil => simp [noRun]
  | cons b bs =>
    constructor
    · intro h
      rw [noRun] at h
      simp only [List.head?_cons, Bool.and_eq_true] at h
      refine ⟨?_, h.2⟩
      intro y hy
      rw [List.head?_cons, Option.some.injEq] at hy
      subst hy
      have h1 := h.1
      cases hv : (p x && p b)
      · rfl
      · rw [hv] at h1
        exact absurd h1 (by decide)
    · intro hpair
      rw [noRun]
      simp only [List.head?_cons, Bool.and_eq_true]
      refine ⟨?_, hpair.2⟩
      rw [hpair.1 b rfl]
      rfl

theorem mem_collapseRunsGo {p : Char → Bool} {r : Char} {c : Char} :
    ∀ {cs : List Char} {b : Bool}, c ∈ collapseRunsGo p r b cs → c ∈ cs ∨ c = r := by
  intro cs
  induction cs with
  | nil => intro b h; simp [collapseRunsGo] at h
  | cons x rest ih =>
    intro b h
    simp only [collapseRunsGo] at h
    by_cases hp : p x = true
    · rw [if_pos hp] at h
      cases b with
      | true =>
        rcases ih h with h' | h'
        · exact Or.inl (List.mem_cons_of_mem _ h')
        · exact Or.inr h'
      | false =>
        rcases List.mem_cons.1 h with h' | h'
        · exact Or.inr h'
        · rcases ih h' with h'' | h''
          · exact Or.inl (List.mem_cons_of_mem _ h'')
          · exact Or.inr h''
    · rw [if_neg hp] at h
      rcases List.mem_cons.1 h with h' | h'
      · exact Or.inl (h' ▸ List.mem_cons_self _ _)
      · rcases ih h' with h'' | h''
        · exact Or.inl (List.mem_cons_of_mem _ h'')
        · exact Or.inr h''

theorem head_collapseRunsGo_true {p : Char → Bool} {r : Char} :
    ∀ {cs : List Char} {h : Char}, (collapseRunsGo p r true cs).head? = some h → p h = false := by
  intro cs
  induction cs with
  | nil => intro h hh; simp [collapseRunsGo] at hh
  | cons x rest ih =>
    intro h hh
    simp only [collapseRunsGo] at hh
    by_cases hp : p x = true
    · rw [if_pos hp] at hh
      exact ih hh
    · rw [if_neg hp] at hh
      simp only [List.head?_cons, Option.some.injEq] at hh
      subst hh
      cases hph : p x
      · rfl
      · exact absurd hph hp

theorem noRun_collapseRunsGo {p : Char → Bool} :
    ∀ (cs : List Char) (b : Bool), noRun p (collapseRunsGo p ' ' b cs) = true := by
  intro cs
  induction cs with
  | nil => intro b; simp [collapseRunsGo, noRun]
  | cons x rest ih =>
    intro b
    simp only [collapseRunsGo]
    by_cases hp : p x = true
    · rw [if_pos hp]
      cases b with
      | true =>
        rw [if_pos rfl]
        exact ih true
      | false =>
        rw [if_neg Bool.false_ne_true]
        rw [noRun_cons]
        refine ⟨?_, ih true⟩
        intro y hy
        rw [head_collapseRunsGo_true hy]
        cases p ' ' <;> rfl
    · rw [if_neg hp]
      rw [noRun_cons]
      refine ⟨?_, ih false⟩
      intro y hy
      rw [Bool.not_eq_true] at hp
      rw [hp]
      rfl

theorem collapseRunsGo_eq_self_of_not {p : Char → Bool} {r : Char} :
    ∀ {cs : List Char}, (∀ c ∈ cs, p c = false) → ∀ b, collapseRunsGo p r b cs = cs := by
  intro cs
  induction cs with
  | nil => intro _ b; rfl
  | cons x rest ih =>
    intro hno b
    have hx : p x = false := hno x (List.mem_cons_self _ _)
    simp only [collapseRunsGo]
    rw [if_neg (by rw [hx]; exact Bool.false_ne_true)]
    rw [ih (fun c hc => hno c (List.mem_cons_of_mem _ hc)) false]

theorem collapseRunsGo_eq_self {p : Char → Bool} :
    ∀ {cs : List Char}, (∀ c ∈ cs, p c = true → c = ' ') → noRun p cs = true →
      ∀ b, (b = true → ∀ h, cs.head? = some h → p h = false) →
      collapseRunsGo p ' ' b cs = cs := by
  intro cs
  induction cs with
  | nil => intro _ _ b _; rfl
  | cons x rest ih =>
    intro hones hrun b hb
    have hrest : noRun p rest = true := (noRun_cons.1 hrun).2
    by_cases hp : p x = true
    · have hx : x = ' ' := hones x (List.mem_cons_self _ _) hp
      cases b with
      | true =>
        exact absurd hp (by rw [hb rfl x rfl]; exact Bool.false_ne_true)
      | false =>
        simp only [collapseRunsGo]
        rw [if_pos hp, if_neg Bool.false_ne_true]
        subst hx
        have hrestid : collapseRunsGo p ' ' true rest = rest := by
          apply ih (fun c hc hc2 => hones c (List.mem_cons_of_mem _ hc) hc2) hrest true
          intro _ y hy
          have hpr := (noRun_cons.1 hrun).1 y hy
          rw [hp] at hpr
          simpa using hpr
        rw [hrestid]
    · simp only [collapseRunsGo]
      rw [if_neg hp]
      rw [ih (fun c hc hc2 => hones c (List.mem_cons_of_mem _ hc) hc2) hrest false
        (by intro hfalse; exact absurd hfalse (by simp))]

theorem head_dropWhile_not {p : Char → Bool} :
    ∀ {cs : List Char} {h : Char}, (cs.dropWhile p).head? = some h → p h = false := by
  intro cs
  induction cs with
  | nil => intro h hh; simp [List.dropWhile] at hh
  | cons x rest ih =>
    intro h hh
    rw [List.dropWhile_cons] at hh
    by_cases hp : p x = true
    · rw [if_pos hp] at hh
      exact ih hh
    · rw [if_neg hp] at hh
      simp only [List.head?_cons, Option.some.injEq] at hh
      subst hh
      cases hph : p x
      · rfl
      · exact absurd hph hp

theorem dropWhile_eq_self_of_head {p : Char → Bool} :
    ∀ {cs : List Char}, (∀ h, cs.head? = some h → p h = false) → cs.dropWhile p = cs := by
  intro cs
  cases cs with
  | nil => intro _; rfl
  | cons x rest =>
    intro hh
    rw [List.dropWhile_cons, if_neg (by rw [hh x rfl]; exact Bool.false_ne_true)]

theorem mem_dropTrailWs {c : Char} : ∀ {cs : List Char}, c ∈ dropTrailWs cs → c ∈ cs := by
  intro cs
  induction cs with
  | nil => intro h; simp [dropTrailWs] at h
  | cons x rest ih =>
    intro h
    simp only [dropTrailWs] at h
    split at h
    · exact absurd h (List.not_mem_nil c)
    · rcases List.mem_cons.1 h with h' | h'
      · exact h' ▸ List.mem_cons_self _ _
      · exact List.mem_cons_of_mem _ (ih h')

theorem head?_dropTrailWs : ∀ {cs : List Char} {h : Char},
    (dropTrailWs cs).head? = some h → cs.head? = some h := by
  intro cs
  cases cs with
  | nil => intro h hh; simp [dropTrailWs] at hh
  | cons x rest =>
    intro h hh
    simp only [dropTrailWs] at hh
    split at hh
    · simp at hh
    · simp only [List.head?_cons, Option.some.injEq] at hh
      simp [List.head?_cons, hh]

theorem noRun_dropTrailWs {p : Char → Bool} :
    ∀ {cs : List Char}, noRun p cs = true → noRun p (dropTrailWs cs) = true := by
  intro cs
  induction cs with
  | nil => intro _; simp [dropTrailWs, noRun]
  | cons x rest ih =>
    intro hr
    simp only [dropTrailWs]
    split
    · simp [noRun]
    · rw [noRun_cons]
      refine ⟨?_, ih (noRun_cons.1 hr).2⟩
      intro y hy
      exact (noRun_cons.1 hr).1 y (head?_dropTrailWs hy)

theorem noRun_dropWhile {p q : Char → Bool} :
    ∀ {cs : List Char}, noRun p cs = true → noRun p (cs.dropWhile q) = true := by
  intro cs
  induction cs with
  | nil => intro _; simp [List.dropWhile, noRun]
  | cons x rest ih =>
    intro hr
    rw [List.dropWhile_cons]
    by_cases hq : q x = true
    · rw [if_pos hq]
      exact ih (noRun_cons.1 hr).2
    · rw [if_neg hq]
      exact hr

theorem dropTrailWs_idem : ∀ (cs : List Char), dropTrailWs (dropTrailWs cs) = dropTrailWs cs := by
  intro cs
  induction cs with
  | nil => rfl
  | cons x rest ih =>
    simp only [dropTrailWs]
    split
    · rfl
    · next hcond =>
      simp only [dropTrailWs, ih]
      rw [if_neg hcond]

theorem map_eq_self_of_fixed {f : Char → Char} :
    ∀ {cs : List Char}, (∀ c ∈ cs, f c = c) → cs.map f = cs := by
  intro cs
  induction cs with
  | nil => intro _; rfl
  | cons x rest ih =>
    intro h
    rw [List.map_cons, h x (List.mem_cons_self _ _),
      ih (fun c hc => h c (List.mem_cons_of_mem _ hc))]

theorem mk_toList (s : String) : String.mk s.toList = s := rfl

theorem mem_jsTrim {c : Char} {cs : List Char} (h : c ∈ jsTrim cs) : c ∈ cs := by
  have h1 : c ∈ dropLeadWs cs := mem_dropTrailWs h
  rw [dropLeadWs] at h1
  exact (List.dropWhile_sublist _).mem h1

theorem head_dropLeadWs_not {cs : List Char} {h : Char}
    (hh : (dropLeadWs cs).head? = some h) : jsWs h = false := by
  rw [dropLeadWs] at hh
  exact head_dropWhile_not hh

theorem norm_toList (s : String) :
    (norm s).toList = jsTrim (collapseRuns jsWs ' '
      ((collapseRuns udChar ' '
        (((jsTrim s.toList).map jsToLower).map mapNbsp)).filter keepChar)) := rfl

theorem norm_props (s : String) :
    (∀ c ∈ (norm s).toList, keepChar c = true) ∧
    (∀ c ∈ (norm s).toList, jsToLower c = c) ∧
    noRun jsWs (norm s).toList = true ∧
    (∀ h, (norm s).toList.head? = some h → jsWs h = false) ∧
    dropTrailWs (norm s).toList = (norm s).toList := by
  rw [norm_toList]
  refine ⟨?_, ?_, ?_, ?_, ?_⟩
  · intro c hc
    rcases mem_collapseRunsGo (mem_jsTrim hc) with hc' | rfl
    · exact (List.mem_filter.1 hc').2
    · decide
  · intro c hc
    rcases mem_collapseRunsGo (mem_jsTrim hc) with hc' | rfl
    · have hv : c ∈ collapseRuns udChar ' '
          (((jsTrim s.toList).map jsToLower).map mapNbsp) := (List.mem_filter.1 hc').1
      rcases mem_collapseRunsGo hv with hv' | rfl
      · obtain ⟨d, _, hdc⟩ := List.mem_map.1 hv'
        obtain ⟨e, _, hed⟩ := List.mem_map.1 (by assumption : d ∈ (jsTrim s.toList).map jsToLower)
        subst hdc
        by_cases hnb : (d == '\u00A0') = true
        · have hmd : mapNbsp d = ' ' := by
            simp only [mapNbsp]
            rw [if_pos hnb]
          rw [hmd]
          decide
        · have hmd : mapNbsp d = d := by
            simp only [mapNbsp]
            rw [if_neg hnb]
          rw [hmd, ← hed]
          exact jsToLower_idem e
      · decide
    · decide
  · exact noRun_dropTrailWs (noRun_dropWhile (noRun_collapseRunsGo _ false))
  · intro h hh
    exact head_dropLeadWs_not (head?_dropTrailWs hh)
  · exact dropTrailWs_idem _

theorem norm_fixed {t : List Char}
    (hkeep : ∀ c ∈ t, keepChar c = true)
    (hlow : ∀ c ∈ t, jsToLower c = c)
    (hrun : noRun jsWs t = true)
    (hhead : ∀ h, t.head? = some h → jsWs h = false)
    (htrail : dropTrailWs t = t) :
    norm (String.mk t) = String.mk t := by
  have htrim : jsTrim t = t := by
    rw [jsTrim, dropLeadWs, dropWhile_eq_self_of_head hhead, htrail]
  have hlowmap : t.map jsToLower = t := map_eq_self_of_fixed hlow
  have hnbsp : t.map mapNbsp = t := map_eq_self_of_fixed (fun c hc => by
    have hc0 := keep_not_nbsp (hkeep c hc)
    have hne : ¬((c == '\u00A0') = true) := by
      rw [hc0]
      exact Bool.false_ne_true
    simp only [mapNbsp]
    rw [if_neg hne])
  have hud : collapseRuns udChar ' ' t = t :=
    collapseRunsGo_eq_self_of_not (fun c hc => keep_not_ud (hkeep c hc)) false
  have hfilter : t.filter keepChar = t := List.filter_eq_self.2 hkeep
  have hws : collapseRuns jsWs ' ' t = t :=
    collapseRunsGo_eq_self (fun c hc hw => keep_ws_eq_space (hkeep c hc) hw) hrun false
      (fun hfalse => absurd hfalse (by simp))
  show String.mk (jsTrim (collapseRuns jsWs ' '
    ((collapseRuns udChar ' ' (((jsTrim t).map jsToLower).map mapNbsp)).filter keepChar))) =
    String.mk t
  rw [htrim, hlowmap, hnbsp, hud, hfilter, hws, htrim]

/-- C7: the Normalizer is idempotent — for every input string `h`,
`norm (norm h) = norm h`. -/
theorem c7_norm_idempotent (h : String) : norm (norm h) = norm h := by
  obtain ⟨hkeep, hlow, hrun, hhead, htrail⟩ := norm_props h
  have hfix := norm_fixed hkeep hlow hrun hhead htrail
  rw [mk_toList] at hfix
  exact hfix

theorem jsTrim_idem (cs : List Char) : jsTrim (jsTrim cs) = jsTrim cs := by
  show jsTrim (dropTrailWs (dropLeadWs cs)) = dropTrailWs (dropLeadWs cs)
  rw [jsTrim, dropLeadWs]
  rw [dropWhile_eq_self_of_head (fun h hh => head_dropLeadWs_not (head?_dropTrailWs hh))]
  exact dropTrailWs_idem _

theorem jsTrimStr_idem (s : String) : jsTrimStr (jsTrimStr s) = jsTrimStr s := by
  show String.mk (jsTrim (String.mk (jsTrim s.toList)).toList) = String.mk (jsTrim s.toList)
  show String.mk (jsTrim (jsTrim s.toList)) = String.mk (jsTrim s.toList)
  rw [jsTrim_idem]

/-- C10: every entry of the header list produced by
`extractColumnsFromFirstSheet` is a non-empty string that equals its own
trim (blank cells are dropped, surrounding whitespace is removed), so the
mapper and the validators never receive an empty-string column. -/
theorem c10_columns_trimmed_nonempty (aoa : List (List String)) :
    ∀ s ∈ extractColumnsFromFirstSheet aoa, s ≠ "" ∧ jsTrimStr s = s := by
  intro s hs
  simp only [extractColumnsFromFirstSheet] at hs
  have hs' := List.mem_filter.1 hs
  constructor
  · intro he
    rw [he] at hs'
    exact absurd hs'.2 (by decide)
  · obtain ⟨t, _, hts⟩ := List.mem_map.1 hs'.1
    rw [← hts]
    exact jsTrimStr_idem t

/-- Witness for C10 at a concrete workbook grid. -/
theorem c10_columns_witness :
    "Title" ∈ extractColumnsFromFirstSheet [["", " Title "]] ∧
    "Title" ≠ "" ∧ jsTrimStr "Title" = "Title" := by
  have hm : "Title" ∈ extractColumnsFromFirstSheet [["", " Title "]] := by decide
  have h := c10_columns_trimmed_nonempty [["", " Title "]] "Title" hm
  exact ⟨hm, h.1, h.2⟩

/-! ### Ephemeral file store -/

theorem getTmp_cons_pos {q : String × TempEntry} {l : TempStore} {now : Nat} {token : String}
    (hq : (q.1 == token) = true) :
    getTmp (q :: l) now token = if q.2.expiresAt ≤ now then none else some q.2 := by
  have hf : (q :: l).find? (fun p => p.1 == token) = some q := List.find?_cons_of_pos l hq
  simp only [getTmp, hf]

theorem getTmp_cons_neg {q : String × TempEntry} {l : TempStore} {now : Nat} {token : String}
    (hq : ¬((q.1 == token) = true)) :
    getTmp (q :: l) now token = getTmp l now token := by
  have hf : (q :: l).find? (fun p => p.1 == token) = l.find? (fun p => p.1 == token) :=
    List.find?_cons_of_neg l hq
  simp only [getTmp, hf]

theorem find?_append_fresh (k : String) (v : TempEntry) :
    ∀ (store : TempStore), store.any (fun p => p.1 == k) = false →
      (store ++ [(k, v)]).find? (fun p => p.1 == k) = some (k, v) := by
  intro store
  induction store with
  | nil =>
    intro _
    simp [List.find?]
  | cons q rest ih =>
    intro hno
    rw [List.any_cons, Bool.or_eq_false_iff] at hno
    have hstep : List.find? (fun p => p.1 == k) (q :: (rest ++ [(k, v)])) =
        List.find? (fun p => p.1 == k) (rest ++ [(k, v)]) :=
      List.find?_cons_of_neg _ (by rw [hno.1]; exact Bool.false_ne_true)
    rw [List.cons_append, hstep]
    exact ih hno.2

theorem find?_overwrite (k : String) (v : TempEntry) :
    ∀ (store : TempStore), store.any (fun p => p.1 == k) = true →
      (store.map (fun p => if p.1 == k then (k, v) else p)).find? (fun p => p.1 == k) =
        some (k, v) := by
  intro store
  induction store with
  | nil => intro h; simp at h
  | cons q rest ih =>
    intro hex
    rw [List.map_cons]
    by_cases hq : (q.1 == k) = true
    · rw [if_pos hq]
      exact List.find?_cons_of_pos _ (by simp)
    · rw [if_neg hq]
      have hstep : List.find? (fun p => p.1 == k)
          (q :: List.map (fun p => if (p.1 == k) = true then (k, v) else p) rest) =
          List.find? (fun p => p.1 == k)
          (List.map (fun p => if (p.1 == k) = true then (k, v) else p) rest) :=
        List.find?_cons_of_neg _ hq
      rw [hstep]
      rw [List.any_cons, Bool.or_eq_true] at hex
      rcases hex with h | h
      · exact absurd h hq
      · exact ih h

theorem find?_mapSet (store : TempStore) (k : String) (v : TempEntry) :
    (mapSet store k v).find? (fun p => p.1 == k) = some (k, v) := by
  rw [mapSet]
  by_cases hex : store.any (fun p => p.1 == k) = true
  · rw [if_pos hex]
    exact find?_overwrite k v store hex
  · rw [if_neg hex]
    exact find?_append_fresh k v store (Bool.of_not_eq_true hex)

theorem getTmp_sweep (now : Nat) (token : String) :
    ∀ (store : TempStore), (store.map (fun p => p.1)).Nodup →
      getTmp (sweepTemp store now) now token = getTmp store now token := by
  intro store
  induction store with
  | nil => intro _; rfl
  | cons q rest ih =>
    intro hnd
    rw [List.map_cons, List.nodup_cons] at hnd
    have hkey : q.1 ∉ rest.map (fun p => p.1) := hnd.1
    have hl := ih hnd.2
    rw [sweepTemp] at hl
    by_cases hexp : q.2.expiresAt ≤ now
    · rw [sweepTemp, List.filter_cons, if_neg (by simp [hexp])]
      rw [hl]
      by_cases hq : (q.1 == token) = true
      · have hfr : rest.find? (fun p => p.1 == token) = none := by
          apply List.find?_eq_none.2
          intro p hp hpk
          apply hkey
          rw [beq_iff_eq] at hq hpk
          rw [hq, ← hpk]
          exact List.mem_map.2 ⟨p, hp, rfl⟩
        have hrest : getTmp rest now token = none := by
          simp [getTmp, hfr]
        rw [hrest, getTmp_cons_pos hq, if_pos hexp]
      · rw [getTmp_cons_neg hq]
    · rw [sweepTemp, List.filter_cons, if_pos (by simp [hexp])]
      by_cases hq : (q.1 == token) = true
      · rw [getTmp_cons_pos hq, getTmp_cons_pos hq]
      · rw [getTmp_cons_neg hq, getTmp_cons_neg hq]
        exact hl

/-- C8: the temp-file lookup answers NotFound (404) whenever the token is
unknown or the current time has reached the expiry stored by `putTempFile`
(insertion time plus TTL) — even on a store the periodic sweep has not yet
cleaned — and running the sweep never changes any lookup's answer. -/
theorem c8_get_expired_notfound :
    (∀ (store : TempStore) (now : Nat) (token : String),
       store.find? (fun p => p.1 == token) = none → getTmp store now token = none) ∧
    (∀ (store : TempStore) (t0 ttl : Nat) (tok : String) (buf : List Nat)
       (fn mi : Option String) (now : Nat), t0 + ttl ≤ now →
       getTmp (putTempFile store t0 ttl tok buf fn mi) now tok = none) ∧
    (∀ (store : TempStore) (now : Nat) (token : String),
       (store.map (fun p => p.1)).Nodup →
       getTmp (sweepTemp store now) now token = getTmp store now token) := by
  refine ⟨?_, ?_, ?_⟩
  · intro store now token h
    simp [getTmp, h]
  · intro store t0 ttl tok buf fn mi now hle
    rw [putTempFile]
    simp [getTmp, find?_mapSet, hle]
  · intro store now token hnd
    exact getTmp_sweep now token store hnd

/-- Witness for C8 at a concrete store: a file stored at time 0 with a TTL
of 600000 ms is gone at its expiry, an unknown token is never found, and
the sweep is invisible to lookups. -/
theorem c8_get_expired_witness :
    getTmp (putTempFile [] 0 600000 "tok" [1, 2] (some "f.xlsx") (some "m")) 600000 "tok" = none ∧
    getTmp [] 5 "unknown" = none ∧
    getTmp (sweepTemp [("a", ⟨[], "f", "m", 3⟩)] 7) 7 "a" = getTmp [("a", ⟨[], "f", "m", 3⟩)] 7 "a" := by
  refine ⟨?_, ?_, ?_⟩
  · exact c8_get_expired_notfound.2.1 [] 0 600000 "tok" [1, 2] (some "f.xlsx") (some "m") 600000
      (by decide)
  · exact c8_get_expired_notfound.1 [] 5 "unknown" (by decide)
  · exact c8_get_expired_notfound.2.2 [("a", ⟨[], "f", "m", 3⟩)] 7 "a" (by decide)

/-! ### Auto-mapping: findOne (C5) -/

theorem headersInfoOf_trimmed : ∀ {headers : List String},
    (∀ h ∈ headers, jsTrimStr h = h ∧ h ≠ "") →
    headersInfoOf headers = headers.map (fun h => ⟨h, norm h⟩) := by
  intro headers
  induction headers with
  | nil => intro _; rfl
  | cons x rest ih =>
    intro htrim
    have hx := htrim x (List.mem_cons_self _ _)
    rw [headersInfoOf, List.map_cons, List.filter_cons]
    rw [if_pos ?_]
    · rw [List.map_cons]
      have htl : (rest.map (fun h => (⟨jsTrimStr h, norm h⟩ : HeaderInfo))).filter
          (fun h => h.raw != "") = rest.map (fun h => ⟨h, norm h⟩) := by
        rw [show (rest.map (fun h => (⟨jsTrimStr h, norm h⟩ : HeaderInfo))).filter
            (fun h => h.raw != "") = headersInfoOf rest from rfl]
        exact ih (fun h hh => htrim h (List.mem_cons_of_mem _ hh))
      rw [htl, hx.1]
    · show ((⟨jsTrimStr x, norm x⟩ : HeaderInfo).raw != "") = true
      rw [show (⟨jsTrimStr x, norm x⟩ : HeaderInfo).raw = jsTrimStr x from rfl, hx.1]
      simp only [bne_iff_ne, ne_eq]
      exact hx.2

/-- C5 counterexample: on the (untrimmed) header list `[" Title "]` the only
header normalizes to the alias `title`, so the claim requires `findOne` to
return that header's raw text `" Title "`; the code returns the trimmed
text `"Title"` instead. -/
theorem c5_counterexample :
    norm " Title " = norm "title" ∧
    findOne ["title"] [" Title "] = some "Title" ∧
    findOne ["title"] [" Title "] ≠ some " Title " := by
  refine ⟨by decide, by decide, by decide⟩

/-- C5 (amended): for header lists whose entries are already trimmed and
non-empty — which holds for every list `extractColumnsFromFirstSheet`
produces — `findOne` returns the first header (in original order) whose
normalized form equals a normalized alias, else the first whose normalized
form contains an alias as a substring, else `none`; and a single-valued
field whose `findOne` is `none` appears in `autoMap`'s missing list. -/
theorem c5_findOne_first_match (aliases : List String) (headers : List String)
    (htrim : ∀ h ∈ headers, jsTrimStr h = h ∧ h ≠ "") :
    (findOne aliases headers =
      match headers.find? (fun h => (aliases.map norm).contains (norm h)) with
      | some h => some h
      | none =>
        headers.find? (fun h => (aliases.map norm).any (fun a => strIncludes (norm h) a))) ∧
    (∀ (cfg : ReqCfg) (key : String),
      (key = "product_images" ∨ key = "title" ∨ key = "description") →
      findOne (cfg.aliases key) headers = none →
      key ∈ (autoMap cfg headers).2) := by
  constructor
  · rw [findOne, headersInfoOf_trimmed htrim]
    simp only [List.find?_map, Option.map_map, Function.comp_def]
    cases hex : headers.find? (fun h => (aliases.map norm).contains (norm h)) with
    | some h0 => rfl
    | none =>
      cases hpart : headers.find?
          (fun h => (aliases.map norm).any (fun a => strIncludes (norm h) a)) with
      | some h1 => rfl
      | none => rfl
  · intro cfg key hkey hnone
    rcases hkey with rfl | rfl | rfl
    · simp [autoMap, hnone]
    · simp [autoMap, hnone]
    · simp [autoMap, hnone]

/-- Witness for C5's amended theorem at a concrete trimmed header list. -/
theorem c5_findOne_witness :
    findOne ["title"] ["Product", "Title"] =
      (match ["Product", "Title"].find? (fun h => (["title"].map norm).contains (norm h)) with
       | some h => some h
       | none =>
         ["Product", "Title"].find?
           (fun h => (["title"].map norm).any (fun a => strIncludes (norm h) a))) ∧
    "title" ∈ (autoMap ⟨["title"], fun _ => []⟩ ["Product", "Title"]).2 := by
  constructor
  · exact (c5_findOne_first_match ["title"] ["Product", "Title"] (by decide)).1
  · exact (c5_findOne_first_match ["title"] ["Product", "Title"] (by decide)).2
      ⟨["title"], fun _ => []⟩ "title" (Or.inr (Or.inl rfl)) (by decide)

/-! ### Candidate ranking (C6) -/

/-- C6: whenever the host's `localeCompare` collation is plain lexicographic
(code-point) comparison — ECMA-402 leaves it implementation-defined, and an
ICU-less build behaves exactly so; ties are otherwise only between
equal-score headers — `candidatesFor` computes exactly the ranking pipeline
the specification describes: score 3 for normalized equality with an alias,
2 for containing an alias, 1 for containing an alias token, keep positive
scores, sort by descending score with lexicographic tie-break on the raw
header, de-duplicate, truncate to the limit. -/
theorem c6_candidates_ranking (lc : String → String → Int)
    (hlc : ∀ a b, lc a b = compareStrInt a b)
    (aliases headers : List String) (limit : Nat) :
    candidatesFor lc aliases headers limit = candidatesSpecC6 aliases headers limit := by
  have hlc' : lc = compareStrInt := funext (fun a => funext (fun b => hlc a b))
  subst hlc'
  have hcmp : (fun (x y : String × Nat) =>
      let d : Int := (y.2 : Int) - (x.2 : Int)
      if d != 0 then d else compareStrInt x.1 y.1) =
      (fun (x y : String × Nat) =>
      if x.2 ≠ y.2 then ((y.2 : Int) - (x.2 : Int)) else compareStrInt x.1 y.1) := by
    funext x y
    by_cases h : x.2 = y.2
    · have hd : (y.2 : Int) - (x.2 : Int) = 0 := by omega
      simp [h, hd]
    · have hd : ((y.2 : Int) - (x.2 : Int)) ≠ 0 := by omega
      simp [h, hd]
  rw [candidatesFor, candidatesSpecC6, hcmp]

/-- Witness for C6 at a concrete alias table and header list, with the
lexicographic collator. -/
theorem c6_candidates_witness :
    candidatesFor compareStrInt ["title"] ["Title", "Product Title", "x"] 10 =
      candidatesSpecC6 ["title"] ["Title", "Product Title", "x"] 10 :=
  c6_candidates_ranking compareStrInt (fun _ _ => rfl) ["title"] ["Title", "Product Title", "x"] 10

/-! ### Mapping validation (C3, C4) -/

/-- C3 counterexample: the pull-variant validator (src/server.js lines
196-227) matches mapped entries against the columns with a raw-string
`Set`, so a mapped `title` entry differing from the header `Title` only in
case is rejected with an unknown-column error even though the normalized
forms agree — a spurious UnknownColumn under the claim's reading. -/
theorem c3_counterexample :
    norm "title" = norm "Title" ∧
    (validateMappingServer
      ⟨some "Product Images", some "title", some "Description", .many ["Bullet Points"]⟩
      ["Product Images", "Title", "Description", "Bullet Points"]).ok = false ∧
    (validateMappingServer
      ⟨some "Product Images", some "title", some "Description", .many ["Bullet Points"]⟩
      ["Product Images", "Title", "Description", "Bullet Points"]).errors =
      ["Mapped column not found: title"] := by
  refine ⟨by decide, by decide, by decide⟩

theorem existsCol_isSome (columns : List String) (col : String)
    (hcol : col ≠ "") (hcols : ∀ c ∈ columns, c ≠ "") :
    (existsCol columns (some col)).isSome = true ↔ ∃ c ∈ columns, norm c = norm col := by
  rw [existsCol]
  rw [if_neg (by simp [hcol])]
  cases hf : columns.reverse.find? (fun x => norm x == norm col) with
  | none =>
    simp only [Option.isSome_none]
    constructor
    · intro h
      exact absurd h (by simp)
    · rintro ⟨c, hc, hn⟩
      have hnone := List.find?_eq_none.1 hf c (List.mem_reverse.2 hc)
      exact absurd (by rw [hn]; exact beq_self_eq_true _) hnone
  | some r =>
    have hr0 := List.find?_some hf
    have hr : (norm r == norm col) = true := by simpa using hr0
    have hrmem : r ∈ columns := List.mem_reverse.1 (List.mem_of_find?_eq_some hf)
    show (if (r == "") = true then none else some r).isSome = true ↔ _
    rw [if_neg (by simp [hcols r hrmem])]
    simp only [Option.isSome_some, true_iff]
    exact ⟨r, hrmem, beq_iff_eq.1 hr⟩

/-- C3 (amended): the inline-variant validator (src/unnamed/part_001 lines
154-182) is the one that decides found-ness by Normalizer equality: over
non-empty columns, its per-entry lookup `existsCol` succeeds exactly when
some current header has the same normalized form as the mapped value (so
case or whitespace round-trip differences cannot cause a spurious
UnknownColumn there), and its verdict is the conjunction of those lookups;
the pull variant compares raw strings instead (see the counterexample). -/
theorem c3_inline_normalized_match (m : MappingVal) (columns : List String)
    (hcols : ∀ c ∈ columns, c ≠ "") :
    ((validateMappingInline m columns).ok = true ↔
      (existsCol columns m.product_images).isSome = true ∧
      (existsCol columns m.title).isSome = true ∧
      (existsCol columns m.description).isSome = true ∧
      ((bulletList m.bullet_points).filterMap (fun c => existsCol columns (some c))) ≠ []) ∧
    (∀ col, col ≠ "" →
      ((existsCol columns (some col)).isSome = true ↔ ∃ c ∈ columns, norm c = norm col)) := by
  constructor
  · cases hpi : existsCol columns m.product_images <;>
    cases hti : existsCol columns m.title <;>
    cases hde : existsCol columns m.description <;>
    cases hbp : (bulletList m.bullet_points).filterMap (fun c => existsCol columns (some c)) <;>
      simp [validateMappingInline, hpi, hti, hde, hbp]
  · intro col hcol
    exact existsCol_isSome columns col hcol hcols

/-- Witness for C3's amended theorem: a mapped value with a trailing space
and different case is still found among the columns. -/
theorem c3_inline_witness :
    (existsCol ["Product Images", "Title"] (some "title ")).isSome = true ∧
    (∃ c ∈ ["Product Images", "Title"], norm c = norm "title ") := by
  have h := (c3_inline_normalized_match
    ⟨some "Product Images", some "title ", some "Description", .noneVal⟩
    ["Product Images", "Title"] (by decide)).2 "title " (by decide)
  exact ⟨h.2 (by decide), by decide⟩

/-- C4 counterexample: the inline-variant validator accepts a mapping whose
bullet_points list contains a column ("Nonexistent") that is unknown under
both raw and Normalizer comparison: it answers ok with an empty error list
and silently filters the offending entry out of the returned sequence,
instead of reporting an UnknownColumn error naming it. -/
theorem c4_counterexample :
    (validateMappingInline
      ⟨some "Product Images", some "Title", some "Description",
        .many ["Bullet Points", "Nonexistent"]⟩
      ["Product Images", "Title", "Description", "Bullet Points"]).ok = true ∧
    (validateMappingInline
      ⟨some "Product Images", some "Title", some "Description",
        .many ["Bullet Points", "Nonexistent"]⟩
      ["Product Images", "Title", "Description", "Bullet Points"]).errors = [] ∧
    (validateMappingInline
      ⟨some "Product Images", some "Title", some "Description",
        .many ["Bullet Points", "Nonexistent"]⟩
      ["Product Images", "Title", "Description", "Bullet Points"]).bullet_points =
      ["Bullet Points"] ∧
    (∀ c ∈ ["Product Images", "Title", "Description", "Bullet Points"],
      norm c ≠ norm "Nonexistent") := by
  refine ⟨by decide, by decide, by decide, by decide⟩

/-- C4 (amended): the pull-variant validator (src/server.js lines 196-227)
does return the complete ordered error list without short-circuiting: its
verdict is exactly the emptiness of the error list, every missing
single-valued field contributes its `Missing mapping` entry, every present
single-valued field not found among the columns contributes a
`Mapped column not found` entry naming the exact mapped header, an empty
bullet list contributes its `Missing mapping` entry, and every bullet entry
not found among the columns contributes its own error naming that entry —
all simultaneously.  The inline variant filters unresolvable bullet entries
silently (see the counterexample). -/
theorem c4_server_complete_errors (m : MappingVal) (columns : List String) :
    ((validateMappingServer m columns).ok = true ↔
      (validateMappingServer m columns).errors = []) ∧
    (isFalsyStr m.product_images = true →
      "Missing mapping: product_images" ∈ (validateMappingServer m columns).errors) ∧
    (∀ c, m.product_images = some c → c ≠ "" → columns.contains c = false →
      ("Mapped column not found: " ++ c) ∈ (validateMappingServer m columns).errors) ∧
    (isFalsyStr m.title = true →
      "Missing mapping: title" ∈ (validateMappingServer m columns).errors) ∧
    (∀ c, m.title = some c → c ≠ "" → columns.contains c = false →
      ("Mapped column not found: " ++ c) ∈ (validateMappingServer m columns).errors) ∧
    (isFalsyStr m.description = true →
      "Missing mapping: description" ∈ (validateMappingServer m columns).errors) ∧
    (∀ c, m.description = some c → c ≠ "" → columns.contains c = false →
      ("Mapped column not found: " ++ c) ∈ (validateMappingServer m columns).errors) ∧
    (bulletList m.bullet_points = [] →
      "Missing mapping: bullet_points" ∈ (validateMappingServer m columns).errors) ∧
    (∀ c ∈ bulletList m.bullet_points, columns.contains c = false →
      ("Mapped bullet_points column not found: " ++ c) ∈
        (validateMappingServer m columns).errors) := by
  refine ⟨?_, ?_, ?_, ?_, ?_, ?_, ?_, ?_, ?_⟩
  · simp [validateMappingServer, List.isEmpty_iff]
  · intro h
    simp [validateMappingServer, h]
  · intro c hc hne hnc
    have hnm : c ∉ columns := by simpa using hnc
    simp [validateMappingServer, hc, isFalsyStr, optShow, hne, hnm]
  · intro h
    simp [validateMappingServer, h]
  · intro c hc hne hnc
    have hnm : c ∉ columns := by simpa using hnc
    simp [validateMappingServer, hc, isFalsyStr, optShow, hne, hnm]
  · intro h
    simp [validateMappingServer, h]
  · intro c hc hne hnc
    have hnm : c ∉ columns := by simpa using hnc
    simp [validateMappingServer, hc, isFalsyStr, optShow, hne, hnm]
  · intro h
    simp [validateMappingServer, h]
  · intro c hc hnc
    have hnm : c ∉ columns := by simpa using hnc
    have hbne : bulletList m.bullet_points ≠ [] := List.ne_nil_of_mem hc
    simp [validateMappingServer, hbne]
    exact Or.inr (Or.inr (Or.inr ⟨c, hc, hnm, rfl⟩))

/-- Witness for C4's amended theorem: a mapping with a missing title and an
unknown bullet entry gets both errors reported at once. -/
theorem c4_server_witness :
    "Missing mapping: title" ∈ (validateMappingServer
      ⟨some "A", none, some "B", .many ["C", "Bad"]⟩ ["A", "B", "C"]).errors ∧
    ("Mapped bullet_points column not found: " ++ "Bad") ∈ (validateMappingServer
      ⟨some "A", none, some "B", .many ["C", "Bad"]⟩ ["A", "B", "C"]).errors := by
  have h := c4_server_complete_errors ⟨some "A", none, some "B", .many ["C", "Bad"]⟩
    ["A", "B", "C"]
  exact ⟨h.2.2.2.1 (by decide),
    h.2.2.2.2.2.2.2.2 "Bad" (by decide) (by decide)⟩

/-! ### Inference retry client (C1) -/

theorem fetchRetryGo_waits (parse : String → Except String String)
    (env : Nat → AttemptOutcome) (jit : Nat → Nat) (cfg : RetryCfg) :
    ∀ (left attempt : Nat), 1 ≤ attempt →
      ∀ i, i < (fetchRetryGo parse env jit cfg attempt left).2.length →
      (fetchRetryGo parse env jit cfg attempt left).2.getD i 0 =
        min cfg.maxDelayMs (cfg.baseDelayMs * 2 ^ (attempt - 1 + i)) + jit (attempt + i) := by
  intro left
  induction left with
  | zero =>
    intro attempt _ i hi
    simp [fetchRetryGo] at hi
  | succ l ih =>
    intro attempt hat i hi
    cases har : attemptResult parse (env attempt) with
    | ok v =>
      simp only [fetchRetryGo, har] at hi
      simp at hi
    | error e =>
      by_cases hcond : (l == 0 || !(isRetryableErr e)) = true
      · simp only [fetchRetryGo, har, if_pos hcond] at hi
        simp at hi
      · simp only [fetchRetryGo, har, if_neg hcond] at hi ⊢
        cases i with
        | zero =>
          simp
        | succ j =>
          have hj : j < (fetchRetryGo parse env jit cfg (attempt + 1) l).2.length := by
            simpa using hi
          have hr := ih (attempt + 1) (by omega) j hj
          have e1 : attempt - 1 + (j + 1) = attempt + 1 - 1 + j := by omega
          have e2 : attempt + (j + 1) = attempt + 1 + j := by omega
          rw [List.getD_cons_succ, e1, e2]
          exact hr

theorem fetchRetryGo_len (parse : String → Except String String)
    (env : Nat → AttemptOutcome) (jit : Nat → Nat) (cfg : RetryCfg) :
    ∀ (left attempt : Nat),
      (fetchRetryGo parse env jit cfg attempt left).2.length ≤ left - 1 := by
  intro left
  induction left with
  | zero => intro attempt; simp [fetchRetryGo]
  | succ l ih =>
    intro attempt
    cases har : attemptResult parse (env attempt) with
    | ok v => simp [fetchRetryGo, har]
    | error e =>
      by_cases hcond : (l == 0 || !(isRetryableErr e)) = true
      · simp [fetchRetryGo, har, hcond]
      · simp only [fetchRetryGo, har, if_neg hcond]
        have hl : l ≠ 0 := by
          intro h0
          subst h0
          exact hcond (by simp)
        have hlen := ih (attempt + 1)
        simp only [List.length_cons]
        omega

theorem fetchRetryGo_step (parse : String → Except String String)
    (env : Nat → AttemptOutcome) (jit : Nat → Nat) (cfg : RetryCfg)
    (attempt left : Nat) (e : FetchErr)
    (he : attemptResult parse (env attempt) = .error e) (hr : isRetryableErr e = true) :
    (fetchRetryGo parse env jit cfg attempt (left + 2)).1 =
      (fetchRetryGo parse env jit cfg (attempt + 1) (left + 1)).1 := by
  rw [show left + 2 = (left + 1) + 1 from rfl]
  simp only [fetchRetryGo, he, hr]
  rw [if_neg (by simp)]

/-- C1 counterexample: an HTTP 400 response (a 4xx other than 429) whose
body text contains the word "timeout" is classified as retryable, because
`isRetryableFetchError` scans the whole thrown message `HTTP 400: <body>`;
the call therefore does not fail on the first attempt — it backs off
2000 ms and returns the second attempt's success. -/
theorem c1_counterexample :
    fetchJsonWithRetry (fun s => .ok s)
      (fun a => if a = 1 then .httpResp 400 "Request timeout" else .httpResp 200 "ok")
      (fun _ => 0) ⟨5, 2000, 60000⟩ = (.ok "ok", [2000]) ∧
    (400 < 500 ∧ 400 ≠ 429) := by
  refine ⟨by rfl, by decide, by decide⟩

/-- C1 (amended): for `fetchJsonWithRetry` with jitter below half a second:
(1) the wait before attempt `i + 2` is exactly
`min(maxDelay, baseDelay * 2^i)` plus that jitter; (2) at most the
configured number of attempts is ever made; (3) a 4xx other than 429 whose
error message `HTTP <status>: <body>` contains no network-failure marker
(lower-cased: fetch failed / socket / econnreset / etimedout / timeout /
network / undici) fails on the first attempt with no retry; (4) a call
answered 503 on the first three attempts and successfully on the fourth
returns the success result when at least four attempts are configured.
(The unqualified version of (3) is false — see the counterexample.) -/
theorem c1_retry_policy (parse : String → Except String String) (jit : Nat → Nat)
    (cfg : RetryCfg) (hjit : ∀ a, jit a < 500) (hret : 1 ≤ cfg.retries) :
    (∀ (env : Nat → AttemptOutcome) (i : Nat),
       i < (fetchJsonWithRetry parse env jit cfg).2.length →
       (fetchJsonWithRetry parse env jit cfg).2.getD i 0 =
         min cfg.maxDelayMs (cfg.baseDelayMs * 2 ^ i) + jit (1 + i) ∧ jit (1 + i) < 500) ∧
    (∀ (env : Nat → AttemptOutcome),
       (fetchJsonWithRetry parse env jit cfg).2.length + 1 ≤ cfg.retries) ∧
    (∀ (env : Nat → AttemptOutcome) (s : Nat) (body : String),
       env 1 = .httpResp s body → 400 ≤ s → s < 500 → s ≠ 429 →
       isRetryableFetchError ("HTTP " ++ Nat.repr s ++ ": " ++ body) = false →
       fetchJsonWithRetry parse env jit cfg =
         (.error ⟨"HTTP " ++ Nat.repr s ++ ": " ++ body, "Error", some s⟩, [])) ∧
    (∀ (env : Nat → AttemptOutcome) (b1 b2 b3 v : String),
       env 1 = .httpResp 503 b1 → env 2 = .httpResp 503 b2 → env 3 = .httpResp 503 b3 →
       attemptResult parse (env 4) = .ok v → 4 ≤ cfg.retries →
       (fetchJsonWithRetry parse env jit cfg).1 = .ok v) := by
  refine ⟨?_, ?_, ?_, ?_⟩
  · intro env i hi
    rw [fetchJsonWithRetry] at hi ⊢
    have hw := fetchRetryGo_waits parse env jit cfg cfg.retries 1 (by omega) i hi
    constructor
    · simpa using hw
    · exact hjit (1 + i)
  · intro env
    rw [fetchJsonWithRetry]
    have hlen := fetchRetryGo_len parse env jit cfg cfg.retries 1
    omega
  · intro env s body henv h400 h500 hne429 hmsg
    have he : attemptResult parse (env 1) =
        .error ⟨"HTTP " ++ Nat.repr s ++ ": " ++ body, "Error", some s⟩ := by
      rw [henv]
      simp only [attemptResult]
      rw [if_neg (by simp only [Bool.and_eq_true, decide_eq_true_eq]; omega)]
    have h1 : (s == 429) = false := by simp [hne429]
    have h2 : decide (500 ≤ s) = false := by
      simp only [decide_eq_false_iff_not]
      omega
    have h3 : (("Error" : String) == "AbortError") = false := by decide
    have hre : isRetryableErr ⟨"HTTP " ++ Nat.repr s ++ ": " ++ body, "Error", some s⟩ = false := by
      simp [isRetryableErr, h1, h2, h3, hmsg]
    obtain ⟨r, hr⟩ : ∃ r, cfg.retries = r + 1 := ⟨cfg.retries - 1, by omega⟩
    rw [fetchJsonWithRetry, hr]
    simp only [fetchRetryGo, he]
    rw [if_pos (by simp [hre])]
  · intro env b1 b2 b3 v h1 h2 h3 h4 hge
    obtain ⟨k, hk⟩ : ∃ k, cfg.retries = k + 4 := ⟨cfg.retries - 4, by omega⟩
    have he1 : attemptResult parse (env 1) =
        .error ⟨"HTTP " ++ Nat.repr 503 ++ ": " ++ b1, "Error", some 503⟩ := by
      rw [h1]
      simp only [attemptResult]
      rw [if_neg (by decide)]
    have he2 : attemptResult parse (env 2) =
        .error ⟨"HTTP " ++ Nat.repr 503 ++ ": " ++ b2, "Error", some 503⟩ := by
      rw [h2]
      simp only [attemptResult]
      rw [if_neg (by decide)]
    have he3 : attemptResult parse (env 3) =
        .error ⟨"HTTP " ++ Nat.repr 503 ++ ": " ++ b3, "Error", some 503⟩ := by
      rw [h3]
      simp only [attemptResult]
      rw [if_neg (by decide)]
    have hre1 : isRetryableErr ⟨"HTTP " ++ Nat.repr 503 ++ ": " ++ b1, "Error", some 503⟩ = true := by
      simp [isRetryableErr]
    have hre2 : isRetryableErr ⟨"HTTP " ++ Nat.repr 503 ++ ": " ++ b2, "Error", some 503⟩ = true := by
      simp [isRetryableErr]
    have hre3 : isRetryableErr ⟨"HTTP " ++ Nat.repr 503 ++ ": " ++ b3, "Error", some 503⟩ = true := by
      simp [isRetryableErr]
    rw [fetchJsonWithRetry, hk]
    have s1 := fetchRetryGo_step parse env jit cfg 1 (k + 2) _ he1 hre1
    have s2 := fetchRetryGo_step parse env jit cfg 2 (k + 1) _ he2 hre2
    have s3 := fetchRetryGo_step parse env jit cfg 3 k _ he3 hre3
    have s4 : (fetchRetryGo parse env jit cfg 4 (k + 1)).1 = .ok v := by
      cases k with
      | zero => simp [fetchRetryGo, h4]
      | succ k' => simp [fetchRetryGo, h4]
    calc (fetchRetryGo parse env jit cfg 1 (k + 4)).1
        = (fetchRetryGo parse env jit cfg 2 (k + 3)).1 := s1
      _ = (fetchRetryGo parse env jit cfg 3 (k + 2)).1 := s2
      _ = (fetchRetryGo parse env jit cfg 4 (k + 1)).1 := s3
      _ = .ok v := s4

/-- Witness for C1's amended theorem: a clean HTTP 400 fails with no retry,
three 503s followed by a 200 yield the success result, and the first
backoff of that run is `min(maxDelay, baseDelay * 2^0)` plus the jitter. -/
theorem c1_retry_witness :
    fetchJsonWithRetry (fun s => .ok s) (fun _ => .httpResp 400 "Bad Request")
      (fun _ => 0) ⟨5, 2000, 60000⟩ =
      (.error ⟨"HTTP " ++ Nat.repr 400 ++ ": " ++ "Bad Request", "Error", some 400⟩, []) ∧
    (fetchJsonWithRetry (fun s => .ok s)
      (fun a => if a ≤ 3 then .httpResp 503 "busy" else .httpResp 200 "done")
      (fun _ => 0) ⟨5, 2000, 60000⟩).1 = .ok "done" ∧
    (fetchJsonWithRetry (fun s => .ok s)
      (fun a => if a ≤ 3 then .httpResp 503 "busy" else .httpResp 200 "done")
      (fun _ => 0) ⟨5, 2000, 60000⟩).2.getD 0 0 = min 60000 (2000 * 2 ^ 0) + 0 := by
  have h := c1_retry_policy (fun s => .ok s) (fun _ => 0) ⟨5, 2000, 60000⟩
    (by intro a; show (0 : Nat) < 500; decide) (by decide)
  refine ⟨?_, ?_, ?_⟩
  · exact h.2.2.1 (fun _ => .httpResp 400 "Bad Request") 400 "Bad Request" rfl (by decide)
      (by decide) (by decide) (by decide)
  · exact h.2.2.2 (fun a => if a ≤ 3 then .httpResp 503 "busy" else .httpResp 200 "done")
      "busy" "busy" "busy" "done" (by decide) (by decide) (by decide) (by rfl) (by decide)
  · have hc := (h.1 (fun a => if a ≤ 3 then .httpResp 503 "busy" else .httpResp 200 "done") 0
      (by decide)).1
    simpa using hc

/-! ### Job-creation handlers (C2, C9) -/

theorem resolveModels_ne_nil (mi : ModelsInput) : resolveModels mi ≠ [] := by
  cases mi with
  | absent => simp [resolveModels, parsedModels]
  | parseFail => simp [resolveModels, parsedModels]
  | nonArray => simp [resolveModels, parsedModels]
  | arrayVal xs => cases xs <;> simp [resolveModels, parsedModels]

/-- C2 counterexample: the pull-model variant (src/server.js lines 539-601)
awaits the Runpod submit call before sending the 201 acknowledgment: for a
fully valid request the submit event precedes the response event, and when
the submit fails no `{jobId, status:"queued"}` response is ever sent — the
caller gets a 400 — so the response is gated on the submit call's
completion and outcome. -/
theorem c2_counterexample :
    serverJobsHandler ["m1"]
      ⟨true, "user@example.com",
        ⟨some "Product Images", some "Title", some "Description", .many ["Bullet Points"]⟩,
        .arrayVal ["m1"],
        ["Product Images", "Title", "Description", "Bullet Points"], true, true⟩ =
      [.putTemp, .submit ["m1"], .respondCreated, .waitPoll, .fetchResult, .emailResult] ∧
    serverJobsHandler ["m1"]
      ⟨true, "user@example.com",
        ⟨some "Product Images", some "Title", some "Description", .many ["Bullet Points"]⟩,
        .arrayVal ["m1"],
        ["Product Images", "Title", "Description", "Bullet Points"], false, true⟩ =
      [.putTemp, .submit ["m1"], .respondBadRequest] := by
  refine ⟨by decide, by decide⟩

/-- C2 (amended): in the inline-model variant (src/unnamed/part_001 lines
556-640) the claim holds: for every request passing mapping and model
validation the `{jobId, status:"queued"}` acknowledgment is the first
event, preceding the inference submit and all external waiting, which run
in the detached background task.  The pull-model variant awaits the submit
call before responding (see the counterexample); only its polling, result
fetch and notification happen after the response. -/
theorem c2_ack_before_submit (modelIds : List String) (r : InlineJobsReq)
    (hf : r.hasFile = true) (he : emailRegexOk r.email = true)
    (hv : (validateMappingInline r.mapping r.columns).ok = true)
    (hm : ∀ m ∈ resolveModels r.models, modelIds.contains m = true) :
    inlineJobsHandler modelIds r =
      HEvent.respondCreated :: HEvent.emailStart :: HEvent.submit (resolveModels r.models) ::
        (if r.inferOk then [HEvent.emailResult] else []) := by
  have hfind : (resolveModels r.models).find? (fun m => !decide (m ∈ modelIds)) = none := by
    apply List.find?_eq_none.2
    intro m hm'
    have hmem : m ∈ modelIds := by simpa using hm m hm'
    simp [hmem]
  have hne : (resolveModels r.models).isEmpty = false := by
    cases hcase : resolveModels r.models with
    | nil => exact absurd hcase (resolveModels_ne_nil r.models)
    | cons a l => rfl
  simp [inlineJobsHandler, hf, he, hv, hfind, hne]

/-- Witness for C2's amended theorem at a fully valid concrete request. -/
theorem c2_ack_witness :
    inlineJobsHandler ["braket_type"]
      ⟨true, "user@example.com",
        ⟨some "Product Images", some "Title", some "Description", .many ["Bullet Points"]⟩,
        .absent, ["Product Images", "Title", "Description", "Bullet Points"], true⟩ =
      [.respondCreated, .emailStart, .submit ["braket_type"], .emailResult] := by
  have h := c2_ack_before_submit ["braket_type"]
    ⟨true, "user@example.com",
      ⟨some "Product Images", some "Title", some "Description", .many ["Bullet Points"]⟩,
      .absent, ["Product Images", "Title", "Description", "Bullet Points"], true⟩
    rfl (by decide) (by decide) (by decide)
  simpa [resolveModels, parsedModels] using h

/-- C9: in the inline-model variant, a missing, unparseable, non-array or
empty `models` field is replaced by the default list `["braket_type"]`
before validation, the resolved model list is never empty, and consequently
the "No models selected" response branch is unreachable for every input. -/
theorem c9_models_default :
    (∀ mi, (mi = ModelsInput.absent ∨ mi = ModelsInput.parseFail ∨
            mi = ModelsInput.nonArray ∨ mi = ModelsInput.arrayVal []) →
       resolveModels mi = ["braket_type"]) ∧
    (∀ mi, resolveModels mi ≠ []) ∧
    (∀ (modelIds : List String) (r : InlineJobsReq),
       HEvent.respondNoModels ∉ inlineJobsHandler modelIds r) := by
  refine ⟨?_, resolveModels_ne_nil, ?_⟩
  · intro mi hmi
    rcases hmi with rfl | rfl | rfl | rfl <;> rfl
  · intro modelIds r
    have hne : (resolveModels r.models).isEmpty = false := by
      cases hcase : resolveModels r.models with
      | nil => exact absurd hcase (resolveModels_ne_nil r.models)
      | cons a l => rfl
    simp only [inlineJobsHandler]
    split
    · simp
    · split
      · simp
      · split
        · simp
        · split
          · simp
          · rw [if_neg (by simp [hne])]
            by_cases hio : r.inferOk <;> simp [hio]

/-- Witness for C9: the parse-failure case resolves to the default model
list, and a concrete request never reaches the "No models selected"
response. -/
theorem c9_models_witness :
    resolveModels ModelsInput.parseFail = ["braket_type"] ∧
    HEvent.respondNoModels ∉ inlineJobsHandler []
      ⟨true, "bad", ⟨none, none, none, .noneVal⟩, .parseFail, [], false⟩ :=
  ⟨c9_models_default.1 ModelsInput.parseFail (Or.inr (Or.inl rfl)),
    c9_models_default.2.2 [] ⟨true, "bad", ⟨none, none, none, .noneVal⟩, .parseFail, [], false⟩⟩
